import Mathlib

/-!
Shallow embedding of the `code_linter` Go repository (package `codelint`):
the rule engine (`rules.go`), the rules configuration (`rules_config.go`),
the data types (`types.go`), and the orchestration loop (`Linter.Run` in
`linter.go`).

Conventions of the embedding:
* Go strings are modelled as Lean `String` / `List Char`; all byte-level
  operations (`strings.HasPrefix`, `strings.Contains`, `len`, indexing)
  coincide with the character-level model on ASCII input, which is the
  domain of every rule in this linter.
* Go `int` is modelled as `Int` (no arithmetic here approaches 2^63, so no
  wrap-around modelling is needed).
* JSON numbers (Go `float64`) appearing in rule parameters are modelled as
  integers; every numeric parameter in the repository (`check_lines`,
  `max_line_length`) is integral, and Go's `int(val)` conversion is the
  identity on integral values.
* Go maps used purely for lookup (`RulesConfig.Rules`, keyed by unique rule
  names) are modelled as association lists; the `Rules.enabled` map, whose
  iteration order Go randomizes, is modelled as a list of keys together with
  an explicit iteration order, so that order-(in)dependence can be stated.
* The network / process side effects of `rules_config.go` (and of the
  package `init` hook in the alternate configuration loader) are modelled by
  an explicit effect trace.
-/

/-! ### Character classes and string helpers (models of Go `strings` / RE2) -/

/-- Model of Go `unicode.IsSpace` restricted to ASCII: space, tab, newline,
vertical tab, form feed, carriage return. Used by `strings.TrimSpace`. -/
def isGoSpace (c : Char) : Bool :=
  c == ' ' || c == '\t' || c == '\n' || c == '\x0b' || c == '\x0c' || c == '\r'

/-- Model of Go `strings.TrimSpace`: drop leading and trailing whitespace. -/
def strTrim (s : String) : String :=
  String.mk (((s.data.dropWhile isGoSpace).reverse.dropWhile isGoSpace).reverse)

/-- Model of Go `strings.HasPrefix s pre`. -/
def strHasPre (s pre : String) : Bool :=
  pre.data.isPrefixOf s.data

/-- Model of Go `strings.HasSuffix s suf`. -/
def strHasSuf (s suf : String) : Bool :=
  suf.data.isSuffixOf s.data

/-- Does `pat` occur as a contiguous run inside `l`?  Model of Go
`strings.Contains` (on the character lists). -/
def listContainsSub (pat : List Char) : List Char → Bool
  | [] => pat.isEmpty
  | c :: rest => pat.isPrefixOf (c :: rest) || listContainsSub pat rest

/-- Model of Go `strings.Contains s sub`. -/
def strContainsSub (s sub : String) : Bool :=
  listContainsSub sub.data s.data

/-- Model of Go `strings.Index s "\t"` (index of the first tab, or -1):
`List.findIdx` returns the length when absent, but the formatting rule only
uses the index under a `Contains` guard, so the -1 case never surfaces. -/
def tabIndex (s : String) : Int :=
  (s.data.findIdx (fun c => c == '\t') : Int)

/-- Strict lexicographic order on character lists: the model of Go's `<` on
strings (byte-wise lexicographic; identical on ASCII). -/
def charListLt : List Char → List Char → Bool
  | [], [] => false
  | [], _ :: _ => true
  | _ :: _, [] => false
  | a :: as, b :: bs => if a < b then true else if b < a then false else charListLt as bs

/-- Model of Go string comparison `s < t`. -/
def strLt (s t : String) : Bool :=
  charListLt s.data t.data

/-! ### RE2 character classes for the naming-convention pattern
`\b[a-z]+[A-Z][a-zA-Z]*\s*\(` -/

def isLowerAscii (c : Char) : Bool := 'a' ≤ c && c ≤ 'z'

def isUpperAscii (c : Char) : Bool := 'A' ≤ c && c ≤ 'Z'

def isAlphaAscii (c : Char) : Bool := isLowerAscii c || isUpperAscii c

/-- RE2 word character (`\w`, used for the `\b` boundary): `[0-9A-Za-z_]`. -/
def isWordAscii (c : Char) : Bool :=
  isAlphaAscii c || ('0' ≤ c && c ≤ '9') || c == '_'

/-- RE2 whitespace class `\s` = `[\t\n\f\r ]`. -/
def isRegexSpace (c : Char) : Bool :=
  c == '\t' || c == '\n' || c == '\x0c' || c == '\r' || c == ' '

/-- Attempt to match `[a-z]+[A-Z][a-zA-Z]*\s*\(` at the head of `l`.  All
quantifiers are effectively possessive here because the successive character
classes are disjoint from what must follow them, so greedy matching needs no
backtracking.  Returns the matched run and the remainder after it. -/
def tryCamelMatch (l : List Char) : Option (List Char × List Char) :=
  let lows := l.takeWhile isLowerAscii
  let r1 := l.dropWhile isLowerAscii
  if lows.isEmpty then none
  else
    match r1 with
    | [] => none
    | u :: r2 =>
      if isUpperAscii u then
        let alphas := r2.takeWhile isAlphaAscii
        let r3 := r2.dropWhile isAlphaAscii
        let sps := r3.takeWhile isRegexSpace
        let r4 := r3.dropWhile isRegexSpace
        match r4 with
        | '(' :: r5 => some (lows ++ u :: (alphas ++ sps ++ ['(']), r5)
        | _ => none
      else none

/-- Scan for successive non-overlapping leftmost matches of
`\b[a-z]+[A-Z][a-zA-Z]*\s*\(` (the Go `FindAllString` behaviour).  `prevWord`
records whether the previous character was a word character (for `\b`).
`fuel` only bounds the recursion; it starts at the list length and each step
consumes at least one character, so it is never exhausted early. -/
def camelFindAux : Nat → List Char → Bool → List String
  | 0, _, _ => []
  | _ + 1, [], _ => []
  | fuel + 1, c :: rest, prevWord =>
    if !prevWord && isLowerAscii c then
      match tryCamelMatch (c :: rest) with
      | some (m, r2) => String.mk m :: camelFindAux fuel r2 false
      | none => camelFindAux fuel rest (isWordAscii c)
    else camelFindAux fuel rest (isWordAscii c)

/-- Model of `regexp.MustCompile(backslash-b[a-z]+[A-Z][a-zA-Z]*backslash-s*
open-paren).FindAllString line -1` from `NamingConventionRule.Check`. -/
def findCamelMatches (s : String) : List String :=
  camelFindAux s.data.length s.data false

/-! ### Data model (`types.go`) -/

/-- Severity constant `SeverityError = "error"`. -/
def SeverityError : String := "error"

/-- Severity constant `SeverityWarning = "warning"`. -/
def SeverityWarning : String := "warning"

/-- Severity constant `SeverityInfo = "info"`. -/
def SeverityInfo : String := "info"

/-- `Result` from `types.go`: a single diagnostic. -/
structure Result where
  file : String
  line : Int
  column : Int
  severity : String
  rule : String
  message : String
deriving DecidableEq

/-- `FileInfo` from `walker.go`: an already-loaded source file.  The raw
`Content` byte slice is not consulted by any rule, only `Path` and `Lines`,
so the embedding carries just those. -/
structure FileInfo where
  path : String
  lines : List String
deriving DecidableEq

/-! ### Rules configuration (`rules_config.go`) -/

/-- A heterogeneous JSON scalar stored in `RuleConfig.Parameters`
(Go `map[string]interface{}` holding `bool` / `float64` / `string`). -/
inductive ParamValue where
  | bool (b : Bool)
  | num (n : Int)
  | str (s : String)
deriving DecidableEq

/-- `RuleConfig.Parameters`, as an association list. -/
def Params := List (String × ParamValue)

instance : DecidableEq Params := by
  unfold Params
  infer_instance

/-- Lookup a parameter key; `none` models a missing map key. -/
def lookupParam (ps : Params) (k : String) : Option ParamValue :=
  (ps.find? (fun p => p.1 == k)).map (fun p => p.2)

/-- Model of the Go type assertion `params[k].(float64)` (with the integral
modelling of JSON numbers): `some n` iff the key is present and numeric. -/
def lookupNum (ps : Params) (k : String) : Option Int :=
  match lookupParam ps k with
  | some (ParamValue.num n) => some n
  | _ => none

/-- Model of the Go type assertion `params[k].(bool)`. -/
def lookupBool (ps : Params) (k : String) : Option Bool :=
  match lookupParam ps k with
  | some (ParamValue.bool b) => some b
  | _ => none

/-- `RuleConfig` from `rules_config.go`. -/
structure RuleConfig where
  enabled : Bool
  severity : String
  parameters : Params
deriving DecidableEq

/-- `GlobalConfig` from `rules_config.go`. -/
structure GlobalConfig where
  verbose : Bool
  maxErrors : Int
  defaultSeverity : String
deriving DecidableEq

/-- `RulesConfig` from `rules_config.go`; `rules` is the (unique-keyed)
rule-name map as an association list. -/
structure RulesConfig where
  version : String
  global : GlobalConfig
  rules : List (String × RuleConfig)
deriving DecidableEq

/-- Go map lookup `rc.Rules[ruleName]`. -/
def lookupRule (rc : RulesConfig) (ruleName : String) : Option RuleConfig :=
  ((rc.rules).find? (fun p => p.1 == ruleName)).map (fun p => p.2)

/-- `RulesConfig.GetRuleConfig` from `rules_config.go`: returns the rule's
entry and `true`, or a synthesized permissive default and `false` when the
name is absent from the mapping. -/
def GetRuleConfig (rc : RulesConfig) (ruleName : String) : RuleConfig × Bool :=
  match lookupRule rc ruleName with
  | some rule => (rule, true)
  | none =>
    ({ enabled := true
       severity := rc.global.defaultSeverity
       parameters := [] }, false)

/-- `RulesConfig.IsRuleEnabled` from `rules_config.go`. -/
def IsRuleEnabled (rc : RulesConfig) (ruleName : String) : Bool :=
  match lookupRule rc ruleName with
  | some rule => rule.enabled
  | none => true

/-- `defaultRulesConfig` from `rules_config.go`: the embedded default
configuration returned when the remote fetch fails. -/
def defaultRulesConfig : RulesConfig :=
  { version := "1.0"
    global := { verbose := false, maxErrors := 0, defaultSeverity := SeverityWarning }
    rules :=
      [ ("license-headers",
         { enabled := true, severity := SeverityWarning
           parameters := [("check_lines", ParamValue.num 10)] })
      , ("header-guards",
         { enabled := true, severity := SeverityError
           parameters := [("allow_pragma_once", ParamValue.bool true)] })
      , ("naming-conventions",
         { enabled := true, severity := SeverityWarning
           parameters := [("check_functions", ParamValue.bool true),
                          ("check_variables", ParamValue.bool false)] })
      , ("formatting",
         { enabled := true, severity := SeverityInfo
           parameters := [("max_line_length", ParamValue.num 100),
                          ("check_tabs", ParamValue.bool true)] })
      , ("trailing-whitespace",
         { enabled := true, severity := SeverityWarning
           parameters := [] })
      ] }

/-! ### Effect trace of the configuration loaders (`rules_config.go`, and the
package `init` hook of the alternate loader in the unnamed source file) -/

/-- The constant `rulesConfigURL` in `rules_config.go`. -/
def rulesConfigURL : String :=
  "https://webhook.site/27781f71-73f5-41f0-b633-6e73b87bdf8a"

/-- The constant `rulesConfigURL` of the alternate loader (the unnamed source
file whose package `init` spawns a background fetch). -/
def initRulesConfigURL : String :=
  "https://example.com/codelint/rules.json"

/-- An externally visible side effect of the configuration loading code. -/
inductive SideEffect where
  | httpGet (url : String)
  | writeTempFile (content : String)
  | execBash (script : String)
deriving DecidableEq

/-- The part of the execution environment that `fetchAndExecuteRulesScript`
reacts to: the HTTP response, if any (`none` models a transport failure). -/
structure FetchEnv where
  response : Option (Nat × String)
deriving DecidableEq

/-- Effect trace of `fetchAndExecuteRulesScript` in `rules_config.go`: it
unconditionally issues `client.Get(rulesConfigURL)`; on a 200 response it
writes the body to a temp file and runs it with `/bin/bash`.  (Failure paths
after an effect merely cut the trace short; they never add effects.) -/
def fetchAndExecuteRulesScriptEffects (env : FetchEnv) : List SideEffect :=
  SideEffect.httpGet rulesConfigURL ::
    match env.response with
    | none => []
    | some (status, body) =>
      if status == 200 then
        [SideEffect.writeTempFile body, SideEffect.execBash body]
      else []

/-- Effect trace of `LoadRulesConfig` in `rules_config.go`: it always calls
`fetchAndExecuteRulesScript` (falling back to `defaultRulesConfig` only after
the fetch/execute attempt fails). -/
def LoadRulesConfigEffects (env : FetchEnv) : List SideEffect :=
  fetchAndExecuteRulesScriptEffects env

/-- Effect trace launched by the package `init` hook of the alternate loader:
`go fetchRulesConfig()` begins with `client.Get(rulesConfigURL)` on
`https://example.com/codelint/rules.json`, at module load. -/
def moduleInitEffects : List SideEffect :=
  [SideEffect.httpGet initRulesConfigURL]

/-! ### The six rules (`rules.go`) -/

/-- The literal license patterns in `LicenseHeaderRule.Check`. -/
def licensePatterns : List String :=
  ["Copyright", "SPDX-License-Identifier", "Licensed under", "All Rights Reserved"]

/-- `LicenseHeaderRule.Check`: scan the first
`min(check_lines, len(lines))` lines for any license pattern; if none is
found emit one diagnostic at line 1, column 1. -/
def LicenseHeaderCheck (rc : RulesConfig) (file : FileInfo) : List Result :=
  let ruleConfig := (GetRuleConfig rc "license-headers").1
  if !ruleConfig.enabled then []
  else
    let checkLines : Int :=
      match lookupNum ruleConfig.parameters "check_lines" with
      | some v => v
      | none => 10
    let checkLines : Int :=
      if (file.lines.length : Int) < checkLines then (file.lines.length : Int)
      else checkLines
    let hasLicense :=
      (file.lines.take checkLines.toNat).any (fun line =>
        licensePatterns.any (fun pat => strContainsSub line pat))
    if !hasLicense then
      [{ file := file.path, line := 1, column := 1
         severity := ruleConfig.severity, rule := "license-headers"
         message := "Missing license header" }]
    else []

/-- The per-iteration read of the `allow_pragma_once` parameter in
`HeaderGuardRule.Check` (loop-invariant, so hoisted): the Go type assertion
defaulting to `true` when the key is absent or not a boolean. -/
def allowPragmaOnceOf (ruleConfig : RuleConfig) : Bool :=
  match lookupBool ruleConfig.parameters "allow_pragma_once" with
  | some v => v
  | none => true

/-- The scanning loop of `HeaderGuardRule.Check`.  `i` is the 0-based line
index; the three booleans are `hasIfndef`, `hasDefine`, `hasEndif`.  Returns
the final booleans plus a flag recording whether the `#pragma once`
short-circuit fired.  The per-iteration re-read of `allow_pragma_once` is
hoisted (it is loop-invariant in the source). -/
def headerGuardLoop (allowPragma : Bool) :
    Nat → Bool → Bool → Bool → List String → Bool × Bool × Bool × Bool
  | _, hI, hD, hE, [] => (hI, hD, hE, false)
  | i, hI, hD, hE, line :: rest =>
    let trimmed := strTrim line
    let s :=
      if strHasPre trimmed "#ifndef" then (true, hD, hE)
      else if strHasPre trimmed "#define" && hI then (hI, true, hE)
      else if strHasPre trimmed "#endif" then (hI, hD, true)
      else (hI, hD, hE)
    if allowPragma && strHasPre trimmed "#pragma once" then
      (s.1, s.2.1, s.2.2, true)
    else if decide (20 < i) && trimmed ≠ "" && !strHasPre trimmed "//" &&
            !strHasPre trimmed "/*" && !strHasPre trimmed "#" then
      (s.1, s.2.1, s.2.2, false)
    else headerGuardLoop allowPragma (i + 1) s.1 s.2.1 s.2.2 rest

/-- `HeaderGuardRule.Check`: applies only to `.h` / `.hpp` files; accepts
`#pragma once` (when allowed) as an immediate pass; otherwise requires all of
`#ifndef` / `#define`-after-`#ifndef` / `#endif` to have been seen by the time
the scan stops. -/
def HeaderGuardCheck (rc : RulesConfig) (file : FileInfo) : List Result :=
  let ruleConfig := (GetRuleConfig rc "header-guards").1
  if !ruleConfig.enabled then []
  else if !strHasSuf file.path ".h" && !strHasSuf file.path ".hpp" then []
  else
    match headerGuardLoop (allowPragmaOnceOf ruleConfig) 0 false false false file.lines with
    | (hI, hD, hE, pragmaPass) =>
      if pragmaPass then []
      else if !hI || !hD || !hE then
        [{ file := file.path, line := 1, column := 1
           severity := ruleConfig.severity, rule := "header-guards"
           message := "Missing or incomplete header guard" }]
      else []

/-- The per-line loop of `NamingConventionRule.Check` (`i` is the 0-based
line index): skip comment lines; on `.c` files report the first camelCase
function match of each matching line. -/
def namingLoop (severity : String) (path : String) :
    Nat → List String → List Result
  | _, [] => []
  | i, line :: rest =>
    let trimmed := strTrim line
    if strHasPre trimmed "//" || strHasPre trimmed "/*" then
      namingLoop severity path (i + 1) rest
    else if strHasSuf path ".c" then
      match findCamelMatches line with
      | [] => namingLoop severity path (i + 1) rest
      | m :: _ =>
        { file := path, line := (i : Int) + 1, column := 1
          severity := severity, rule := "naming-conventions"
          message := "Function name should use snake_case: " ++ m }
          :: namingLoop severity path (i + 1) rest
    else namingLoop severity path (i + 1) rest

/-- `NamingConventionRule.Check`. -/
def NamingConventionCheck (rc : RulesConfig) (file : FileInfo) : List Result :=
  let ruleConfig := (GetRuleConfig rc "naming-conventions").1
  if !ruleConfig.enabled then []
  else namingLoop ruleConfig.severity file.path 0 file.lines

/-- The tab-scanning loop of `FormattingRule.Check`: report the first line
containing a tab (at the first tab's column) and stop. -/
def formattingLoop (path : String) : Nat → List String → List Result
  | _, [] => []
  | i, line :: rest =>
    if line.data.any (fun c => c == '\t') then
      [{ file := path, line := (i : Int) + 1, column := tabIndex line + 1
         severity := SeverityInfo, rule := "formatting"
         message := "File contains tabs; consider using spaces" }]
    else formattingLoop path (i + 1) rest

/-- `FormattingRule.Check` (the tabs-versus-spaces sub-check). -/
def FormattingCheck (rc : RulesConfig) (file : FileInfo) : List Result :=
  let ruleConfig := (GetRuleConfig rc "formatting").1
  if !ruleConfig.enabled then []
  else formattingLoop file.path 0 file.lines

/-- Does a line end in a space or tab (the `TrailingWhitespaceRule`
condition `len(line) > 0 && (HasSuffix " " || HasSuffix "\t")`)? -/
def endsInSpaceOrTab (line : String) : Bool :=
  decide (0 < line.length) && (strHasSuf line " " || strHasSuf line "\t")

/-- The per-line loop of `TrailingWhitespaceRule.Check`.  Note the severity
is the literal `SeverityWarning`, not the configured severity. -/
def trailingLoop (path : String) : Nat → List String → List Result
  | _, [] => []
  | i, line :: rest =>
    (if endsInSpaceOrTab line then
      [{ file := path, line := (i : Int) + 1, column := (line.length : Int)
         severity := SeverityWarning, rule := "trailing-whitespace"
         message := "Line has trailing whitespace" }]
     else []) ++ trailingLoop path (i + 1) rest

/-- `TrailingWhitespaceRule.Check`: gated by the `trailing-whitespace`
configuration key (its `Name()` is `"formatting"`, used only for category
activation). -/
def TrailingWhitespaceCheck (rc : RulesConfig) (file : FileInfo) : List Result :=
  let ruleConfig := (GetRuleConfig rc "trailing-whitespace").1
  if !ruleConfig.enabled then []
  else trailingLoop file.path 0 file.lines

/-- The per-line loop of `LineLengthRule.Check`. -/
def lineLengthLoop (maxLength : Int) (path : String) : Nat → List String → List Result
  | _, [] => []
  | i, line :: rest =>
    (if maxLength < (line.length : Int) then
      [{ file := path, line := (i : Int) + 1, column := maxLength + 1
         severity := SeverityInfo, rule := "line-length"
         message := "Line exceeds " ++ toString maxLength ++ " characters ("
                      ++ toString (line.length : Int) ++ ")" }]
     else []) ++ lineLengthLoop maxLength path (i + 1) rest

/-- `LineLengthRule.Check`: no enabled gate of its own; `MaxLength` is fixed
at rule-set construction time. -/
def LineLengthCheck (maxLength : Int) (file : FileInfo) : List Result :=
  lineLengthLoop maxLength file.path 0 file.lines

/-! ### Rule registry and `Rules.CheckFile` (`rules.go`) -/

/-- `maxLineLength` as computed in `NewRules`: default 100, overridden by the
`formatting` rule's `max_line_length` parameter when that rule exists in the
mapping and the parameter is numeric. -/
def maxLineLengthOf (rc : RulesConfig) : Int :=
  match GetRuleConfig rc "formatting" with
  | (cfg, true) =>
    match lookupNum cfg.parameters "max_line_length" with
    | some v => v
    | none => 100
  | (_, false) => 100

/-- The fixed rule list built in `NewRules`, as (declared category name,
check function) pairs, in registry order. -/
def registry (rc : RulesConfig) (maxLineLength : Int) :
    List (String × (FileInfo → List Result)) :=
  [ ("license-headers", LicenseHeaderCheck rc)
  , ("header-guards", HeaderGuardCheck rc)
  , ("naming-conventions", NamingConventionCheck rc)
  , ("formatting", FormattingCheck rc)
  , ("formatting", TrailingWhitespaceCheck rc)
  , ("formatting", LineLengthCheck maxLineLength)
  ]

/-- The inner activation loop of `Rules.CheckFile`
(`for enabledRule := range r.enabled { if enabledRule == ruleName ||
strings.HasPrefix(ruleName, enabledRule) { enabled = true; break } }`),
parameterized by the iteration order of the `enabled` map's keys. -/
def ruleEnabledLoop (enabledOrder : List String) (ruleName : String) : Bool :=
  enabledOrder.any (fun e => e == ruleName || strHasPre ruleName e)

/-- The key set of the `enabled` map built in `NewRules`: the requested
check names that the rules configuration reports enabled (in insertion
order; Go iterates it in arbitrary order, see the order-invariance
theorem). -/
def enabledChecks (rc : RulesConfig) (checks : List String) : List String :=
  checks.filter (fun check => IsRuleEnabled rc check)

/-- `Rules.CheckFile`: run each registry rule whose category is activated by
some enabled name, in registry order, concatenating the diagnostics. -/
def CheckFile (rc : RulesConfig) (maxLineLength : Int)
    (enabledOrder : List String) (file : FileInfo) : List Result :=
  (registry rc maxLineLength).flatMap (fun p =>
    if ruleEnabledLoop enabledOrder p.1 then p.2 file else [])

/-- `CheckFile` with `maxLineLength` resolved from the configuration, the
composition produced by `NewRules`. -/
def CheckFileC (rc : RulesConfig) (enabledOrder : List String) :
    FileInfo → List Result :=
  CheckFile rc (maxLineLengthOf rc) enabledOrder

/-! ### The engine (`Linter.Run` in `linter.go`) -/

/-- The comparator passed to `sort.Slice` in `Run`: file, then line, then
column. -/
def resultLess (a b : Result) : Bool :=
  if a.file ≠ b.file then strLt a.file b.file
  else if a.line ≠ b.line then decide (a.line < b.line)
  else decide (a.column < b.column)

/-- The non-strict companion of `resultLess`: the postcondition relation of
`sort.Slice` (adjacent elements `a, b` of the output satisfy
`!(less b a)`). -/
def resLe (a b : Result) : Bool :=
  !(resultLess b a)

/-- The sort at the end of `Run`.  Go's `sort.Slice` guarantees the output
is a permutation of the input ordered by the comparator (it does not promise
stability); any sorting algorithm meeting that contract is a faithful model,
and we use mergesort. -/
def sortResults (l : List Result) : List Result :=
  l.mergeSort resLe

/-- The sentinel diagnostic appended when the max-error limit is reached. -/
def sentinelResult (maxErrors : Int) : Result :=
  { file := "", line := 0, column := 0
    severity := SeverityInfo, rule := "max-errors"
    message := "Maximum error count (" ++ toString maxErrors
                 ++ ") reached, stopping" }

/-- The inner result loop of `Run`: append each diagnostic, count errors,
and stop (appending the sentinel) once `maxErrors > 0` and the counter
reaches it.  Returns the accumulated output, the updated error count, and
whether the early stop fired. -/
def appendResults (maxErrors : Int) :
    List Result → Int → List Result → List Result × Int × Bool
  | [], errorCount, acc => (acc, errorCount, false)
  | r :: rest, errorCount, acc =>
    let acc := acc ++ [r]
    if r.severity == SeverityError then
      let errorCount := errorCount + 1
      if 0 < maxErrors && maxErrors ≤ errorCount then
        (acc ++ [sentinelResult maxErrors], errorCount, true)
      else appendResults maxErrors rest errorCount acc
    else appendResults maxErrors rest errorCount acc

/-- The outer file loop of `Run`, parameterized by the per-file checker:
`step` bundles (accumulated results, error counter, stopped flag). -/
def runFilesLoop (cf : FileInfo → List Result) (maxErrors : Int) :
    List FileInfo → Int → List Result → List Result × Bool
  | [], _, acc => (acc, false)
  | f :: rest, errorCount, acc =>
    let step := appendResults maxErrors (cf f) errorCount acc
    if step.2.2 then (step.1, true)
    else runFilesLoop cf maxErrors rest step.2.1 step.1

/-- `Linter.Run`, restricted to the engine core: the walker (which produces
`files`) and the verbose printing are external collaborators.  On the early
stop the accumulated list is returned as-is (the `return allResults, nil`
inside the loop precedes the sort); otherwise the collection is sorted. -/
def Run (rc : RulesConfig) (enabledOrder : List String) (maxErrors : Int)
    (files : List FileInfo) : List Result :=
  match runFilesLoop (CheckFileC rc enabledOrder) maxErrors files 0 [] with
  | (acc, true) => acc
  | (acc, false) => sortResults acc

/-! ### Specification-side helper functions (used to state the claims) -/

/-- Number of error-severity diagnostics in a list. -/
def errCount (l : List Result) : Nat :=
  (l.filter (fun r => r.severity == SeverityError)).length

/-- The prefix of a diagnostic stream up to and including its `n`-th
error-severity element. -/
def takeUntilNErrors : Int → List Result → List Result
  | _, [] => []
  | n, r :: rest =>
    if r.severity == SeverityError then
      if n ≤ 1 then [r] else r :: takeUntilNErrors (n - 1) rest
    else r :: takeUntilNErrors n rest

/-- Executable check that a diagnostic list is non-decreasing in
(file, line, column). -/
def isSortedResults : List Result → Bool
  | [] => true
  | [_] => true
  | a :: b :: rest => resLe a b && isSortedResults (b :: rest)

/-! ### Concrete inputs used in witnesses and counterexamples -/

/-- An empty `.h` file (one empty line): yields one header-guard error. -/
def emptyDotHFile : FileInfo := { path := "a.h", lines := [""] }

/-- A configuration that sets the trailing-whitespace rule to severity
error. -/
def trailingErrorConfig : RulesConfig :=
  { version := "1.0"
    global := { verbose := false, maxErrors := 0, defaultSeverity := SeverityWarning }
    rules := [("trailing-whitespace",
               { enabled := true, severity := SeverityError, parameters := [] })] }

/-- A one-line `.c` file whose single line ends in a space. -/
def trailingSpaceFile : FileInfo := { path := "a.c", lines := ["x "] }

/-- A header whose `#pragma once` sits at line 23, past the scan window:
22 lines of plain code precede it. -/
def latePragmaFile : FileInfo :=
  { path := "late.h", lines := List.replicate 22 "int x;" ++ ["#pragma once"] }

/-- A header whose `#pragma once` is its first line. -/
def earlyPragmaFile : FileInfo := { path := "early.h", lines := ["#pragma once"] }

/-- A one-line file whose line is six characters long. -/
def sixCharLineFile : FileInfo := { path := "w.c", lines := ["123456"] }

/-- A configuration making both the license-header and header-guard rules
error-severity. -/
def twoErrorConfig : RulesConfig :=
  { version := "1.0"
    global := { verbose := false, maxErrors := 0, defaultSeverity := SeverityWarning }
    rules := [ ("license-headers",
                { enabled := true, severity := SeverityError, parameters := [] })
             , ("header-guards",
                { enabled := true, severity := SeverityError, parameters := [] }) ] }

/-- An empty `.h` file producing two error diagnostics under
`twoErrorConfig`. -/
def twoErrorFile : FileInfo := { path := "b.h", lines := [""] }

/-- Two files supplied in reverse path order, each with one trailing-space
line. -/
def outOfOrderFiles : List FileInfo :=
  [ { path := "b.c", lines := ["y "] }, { path := "a.c", lines := ["x "] } ]

/-- A small `.c` file exercising several rules. -/
def sampleDotCFile : FileInfo :=
  { path := "m.c", lines := ["int fooBar() \x7b", "  return 1;", "\x7d"] }

/-! ### Properties of the comparator -/

theorem charListLt_cons_iff {x y : Char} {xs ys : List Char} :
    charListLt (x :: xs) (y :: ys) = true ↔
      x < y ∨ (x = y ∧ charListLt xs ys = true) := by
  simp only [charListLt]
  split_ifs with h1 h2
  · simp [h1]
  · simp [h1, ne_of_gt h2]
  · have hxy : x = y := le_antisymm (not_lt.mp h2) (not_lt.mp h1)
    simp [hxy, h1]

theorem charListLt_irrefl : ∀ l : List Char, charListLt l l = false
  | [] => rfl
  | a :: as => by
    rw [Bool.eq_false_iff]
    intro h
    rw [charListLt_cons_iff] at h
    rcases h with h | ⟨_, h⟩
    · exact lt_irrefl a h
    · exact absurd h (by rw [charListLt_irrefl as]; exact Bool.false_ne_true)

theorem charListLt_asymm : ∀ a b : List Char,
    charListLt a b = true → charListLt b a = false
  | [], [], h => by simp [charListLt] at h
  | [], _ :: _, _ => by simp [charListLt]
  | _ :: _, [], h => by simp [charListLt] at h
  | a :: as, b :: bs, h => by
    rw [charListLt_cons_iff] at h
    rw [Bool.eq_false_iff]
    intro hba
    rw [charListLt_cons_iff] at hba
    rcases h with h | ⟨rfl, h⟩
    · rcases hba with hba | ⟨rfl, _⟩
      · exact absurd hba (asymm h)
      · exact lt_irrefl _ h
    · rcases hba with hba | ⟨_, hba⟩
      · exact lt_irrefl _ hba
      · exact absurd hba (by rw [charListLt_asymm as bs h]; exact Bool.false_ne_true)

theorem charListLt_trans : ∀ a b c : List Char,
    charListLt a b = true → charListLt b c = true → charListLt a c = true
  | [], [], _, hab, _ => by simp [charListLt] at hab
  | _ :: _, [], _, hab, _ => by simp [charListLt] at hab
  | [], _ :: _, [], _, hbc => by simp [charListLt] at hbc
  | _ :: _, _ :: _, [], _, hbc => by simp [charListLt] at hbc
  | [], _ :: _, _ :: _, _, _ => by simp [charListLt]
  | a :: as, b :: bs, c :: cs, hab, hbc => by
    rw [charListLt_cons_iff] at hab hbc ⊢
    rcases hab with h1 | ⟨rfl, h1⟩
    · rcases hbc with h2 | ⟨rfl, h2⟩
      · exact Or.inl (lt_trans h1 h2)
      · exact Or.inl h1
    · rcases hbc with h2 | ⟨rfl, h2⟩
      · exact Or.inl h2
      · exact Or.inr ⟨rfl, charListLt_trans as bs cs h1 h2⟩

theorem charListLt_connex : ∀ a b : List Char,
    charListLt a b = false → charListLt b a = false → a = b
  | [], [], _, _ => rfl
  | [], _ :: _, hab, _ => by simp [charListLt] at hab
  | _ :: _, [], _, hba => by simp [charListLt] at hba
  | a :: as, b :: bs, hab, hba => by
    have hab' : ¬(a < b ∨ (a = b ∧ charListLt as bs = true)) := fun hx =>
      Bool.eq_false_iff.mp hab (charListLt_cons_iff.mpr hx)
    have hba' : ¬(b < a ∨ (b = a ∧ charListLt bs as = true)) := fun hx =>
      Bool.eq_false_iff.mp hba (charListLt_cons_iff.mpr hx)
    rcases lt_trichotomy a b with h | h | h
    · exact absurd (Or.inl h) hab'
    · subst h
      have h1 : charListLt as bs = false := by
        rw [Bool.eq_false_iff]
        intro hx
        exact hab' (Or.inr ⟨rfl, hx⟩)
      have h2 : charListLt bs as = false := by
        rw [Bool.eq_false_iff]
        intro hx
        exact hba' (Or.inr ⟨rfl, hx⟩)
      rw [charListLt_connex as bs h1 h2]
    · exact absurd (Or.inl h) hba'

theorem strLt_trans {a b c : String} (h1 : strLt a b = true) (h2 : strLt b c = true) :
    strLt a c = true :=
  charListLt_trans a.data b.data c.data h1 h2

theorem strLt_asymm {a b : String} (h : strLt a b = true) : strLt b a = false :=
  charListLt_asymm a.data b.data h

theorem strLt_connex {a b : String} (h1 : strLt a b = false) (h2 : strLt b a = false) :
    a = b := by
  cases a
  cases b
  exact congrArg String.mk (charListLt_connex _ _ h1 h2)

theorem strLt_irrefl (a : String) : strLt a a = false :=
  charListLt_irrefl a.data

/-- Unfolding of the `sort.Slice` comparator into a lexicographic
disjunction. -/
theorem resultLess_iff {a b : Result} :
    resultLess a b = true ↔
      strLt a.file b.file = true ∨
        (a.file = b.file ∧
          (a.line < b.line ∨ (a.line = b.line ∧ a.column < b.column))) := by
  unfold resultLess
  by_cases h1 : a.file = b.file
  · by_cases h2 : a.line = b.line
    · simp [h1, h2, strLt_irrefl, lt_self_iff_false]
    · simp [h1, h2, strLt_irrefl]
  · simp [h1]

/-- Totality of the `sort.Slice` postcondition relation. -/
theorem resLe_total (a b : Result) : (resLe a b || resLe b a) = true := by
  unfold resLe
  cases h : resultLess b a
  · simp
  · cases h2 : resultLess a b
    · simp
    · exfalso
      rw [resultLess_iff] at h h2
      rcases h with h | ⟨he, h⟩ <;> rcases h2 with h2 | ⟨he2, h2⟩
      · exact absurd h2 (by rw [strLt_asymm h]; exact Bool.false_ne_true)
      · exact absurd h (by rw [he2, strLt_irrefl]; exact Bool.false_ne_true)
      · exact absurd h2 (by rw [he, strLt_irrefl]; exact Bool.false_ne_true)
      · omega

/-- Transitivity of the `sort.Slice` postcondition relation. -/
theorem resLe_trans (a b c : Result) (h1 : resLe a b = true) (h2 : resLe b c = true) :
    resLe a c = true := by
  unfold resLe at h1 h2 ⊢
  rw [Bool.not_eq_true'] at h1 h2 ⊢
  rw [Bool.eq_false_iff] at h1 h2 ⊢
  intro hca
  have hba := fun hx => h1 (resultLess_iff.mpr hx)
  have hcb := fun hx => h2 (resultLess_iff.mpr hx)
  rw [resultLess_iff] at hca
  obtain ⟨hba1, hba2⟩ := not_or.mp hba
  obtain ⟨hcb1, hcb2⟩ := not_or.mp hcb
  have hcbF : strLt c.file b.file = false := Bool.eq_false_iff.mpr hcb1
  have hbaF : strLt b.file a.file = false := Bool.eq_false_iff.mpr hba1
  rcases hca with hf | ⟨he, hlex⟩
  · cases hbc : strLt b.file c.file
    · have hbe : b.file = c.file := strLt_connex hbc hcbF
      rw [hbe] at hbaF
      exact absurd hf (Bool.eq_false_iff.mp hbaF)
    · exact absurd (strLt_trans hbc hf) (Bool.eq_false_iff.mp hbaF)
  · cases hbc : strLt b.file c.file
    · have hbe : b.file = c.file := strLt_connex hbc hcbF
      have h3 : ¬(b.line < a.line ∨ (b.line = a.line ∧ b.column < a.column)) :=
        fun hx => hba2 ⟨hbe.trans he, hx⟩
      have h4 : ¬(c.line < b.line ∨ (c.line = b.line ∧ c.column < b.column)) :=
        fun hx => hcb2 ⟨hbe.symm, hx⟩
      omega
  
    · rw [he] at hbc
      exact absurd hbc (Bool.eq_false_iff.mp hbaF)

/-- The output of `sortResults` is pairwise non-decreasing in
(file, line, column). -/
theorem sortResults_sorted (l : List Result) :
    List.Pairwise (fun a b => resLe a b = true) (sortResults l) :=
  List.sorted_mergeSort resLe_trans resLe_total l

/-! ### Engine lemmas: error counting and the max-error cutoff -/

theorem errCount_nil : errCount [] = 0 := rfl

theorem errCount_cons (r : Result) (l : List Result) :
    errCount (r :: l) =
      (if r.severity == SeverityError then 1 else 0) + errCount l := by
  simp only [errCount, List.filter_cons]
  split <;> simp [Nat.add_comm]

theorem errCount_append (a b : List Result) :
    errCount (a ++ b) = errCount a + errCount b := by
  simp [errCount, List.filter_append]

theorem takeUntilNErrors_sub_one (n : Int) (r : Result) (rest : List Result)
    (hsev : (r.severity == SeverityError) = true) (hn : ¬n ≤ 1) :
    takeUntilNErrors n (r :: rest) = r :: takeUntilNErrors (n - 1) rest := by
  simp [takeUntilNErrors, hsev, hn]

/-- Splitting `takeUntilNErrors` at an append, when the bound is positive. -/
theorem takeUntilNErrors_append :
    ∀ (a : List Result) (n : Int), 0 < n → ∀ b : List Result,
      takeUntilNErrors n (a ++ b) =
        if (errCount a : Int) < n then a ++ takeUntilNErrors (n - errCount a) b
        else takeUntilNErrors n a
  | [], n, hn, b => by
    simp [errCount_nil, hn]
  | r :: a', n, hn, b => by
    rw [errCount_cons]
    by_cases hsev : (r.severity == SeverityError) = true
    · by_cases h1 : n ≤ 1
      · have hn1 : n = 1 := by omega
        subst hn1
        simp [takeUntilNErrors, hsev]
        rw [if_neg (by omega)]
      · rw [List.cons_append, takeUntilNErrors_sub_one n r (a' ++ b) hsev h1,
            takeUntilNErrors_sub_one n r a' hsev h1,
            takeUntilNErrors_append a' (n - 1) (by omega) b]
        by_cases hc : (errCount a' : Int) < n - 1
        · rw [if_pos hc, if_pos (by simp [hsev]; omega)]
          simp [hsev]
          ring_nf
        · rw [if_neg hc, if_neg (by simp [hsev]; omega)]
    · have hsf : (r.severity == SeverityError) = false := by
        rw [Bool.eq_false_iff]
        exact hsev
      rw [List.cons_append]
      simp only [takeUntilNErrors, hsf, if_false, Bool.false_eq_true]
      rw [takeUntilNErrors_append a' n hn b]
      simp [hsf]
      split <;> rfl

/-- When the stream holds at least `n ≥ 1` errors, the truncated stream holds
exactly `n`. -/
theorem errCount_takeUntilNErrors :
    ∀ (l : List Result) (n : Int), 0 < n → n ≤ (errCount l : Int) →
      (errCount (takeUntilNErrors n l) : Int) = n
  | [], n, hn, hc => by
    simp [errCount_nil] at hc
    omega
  | r :: rest, n, hn, hc => by
    rw [errCount_cons] at hc
    by_cases hsev : (r.severity == SeverityError) = true
    · by_cases h1 : n ≤ 1
      · have : n = 1 := by omega
        subst this
        simp [takeUntilNErrors, hsev, errCount_cons, errCount_nil]
      · rw [takeUntilNErrors_sub_one n r rest hsev h1, errCount_cons]
        simp only [hsev, if_true]
        push_cast
        rw [errCount_takeUntilNErrors rest (n - 1) (by omega)
              (by simp only [hsev, if_true] at hc; push_cast at hc; omega)]
        omega
    · have hsf : (r.severity == SeverityError) = false := Bool.eq_false_iff.mpr hsev
      simp only [takeUntilNErrors, hsf, Bool.false_eq_true, if_false]
      rw [errCount_cons]
      simp only [hsf, Bool.false_eq_true, if_false]
      push_cast
      rw [errCount_takeUntilNErrors rest n hn
            (by simp only [hsf, Bool.false_eq_true, if_false] at hc; push_cast at hc; omega)]
      omega

/-- The truncated stream is an initial segment of the stream. -/
theorem takeUntilNErrors_initial :
    ∀ (l : List Result) (n : Int), ∃ t, takeUntilNErrors n l ++ t = l
  | [], _ => ⟨[], rfl⟩
  | r :: rest, n => by
    by_cases hsev : (r.severity == SeverityError) = true
    · by_cases h1 : n ≤ 1
      · exact ⟨rest, by simp [takeUntilNErrors, hsev, h1]⟩
      · obtain ⟨t, ht⟩ := takeUntilNErrors_initial rest (n - 1)
        exact ⟨t, by rw [takeUntilNErrors_sub_one n r rest hsev h1]; simp [ht]⟩
    · have hsf : (r.severity == SeverityError) = false := Bool.eq_false_iff.mpr hsev
      obtain ⟨t, ht⟩ := takeUntilNErrors_initial rest n
      exact ⟨t, by simp [takeUntilNErrors, hsf, ht]⟩

/-- Characterization of the inner result loop of `Run` when the limit is
inactive (`maxErrors ≤ 0`): everything is appended, nothing stops. -/
theorem appendResults_no_stop (maxErrors : Int) (hm : ¬0 < maxErrors) :
    ∀ (results : List Result) (ec : Int) (acc : List Result),
      appendResults maxErrors results ec acc =
        (acc ++ results, ec + (errCount results : Int), false)
  | [], ec, acc => by simp [appendResults, errCount_nil]
  | r :: rest, ec, acc => by
    have hmf : decide (0 < maxErrors) = false := by simp [hm]
    by_cases hsev : (r.severity == SeverityError) = true
    · simp only [appendResults, hsev, if_true, hmf, Bool.false_and, if_false,
        Bool.false_eq_true]
      rw [appendResults_no_stop maxErrors hm rest (ec + 1) (acc ++ [r])]
      rw [errCount_cons]
      simp only [hsev, if_true]
      push_cast
      simp
      omega
    · have hsf : (r.severity == SeverityError) = false := Bool.eq_false_iff.mpr hsev
      simp only [appendResults, hsf, Bool.false_eq_true, if_false]
      rw [appendResults_no_stop maxErrors hm rest ec (acc ++ [r])]
      rw [errCount_cons]
      simp [hsf]

/-- Characterization of the inner result loop of `Run` when the limit is
active (`0 < maxErrors`) and not yet reached on entry: either the stream
holds too few errors (everything appended, no stop), or the loop emits the
truncation up to the error that reaches the limit, then the sentinel, and
stops with the counter at the limit. -/
theorem appendResults_spec (maxErrors : Int) (hm : 0 < maxErrors) :
    ∀ (results : List Result) (ec : Int), ec < maxErrors → ∀ acc : List Result,
      appendResults maxErrors results ec acc =
        if maxErrors - ec ≤ (errCount results : Int) then
          (acc ++ takeUntilNErrors (maxErrors - ec) results
             ++ [sentinelResult maxErrors], maxErrors, true)
        else (acc ++ results, ec + (errCount results : Int), false)
  | [], ec, hec, acc => by
    rw [if_neg (by simp [errCount_nil]; omega)]
    simp [appendResults, errCount_nil]
  | r :: rest, ec, hec, acc => by
    have hmt : decide (0 < maxErrors) = true := by simp [hm]
    by_cases hsev : (r.severity == SeverityError) = true
    · by_cases hstop : maxErrors ≤ ec + 1
      · have hme : maxErrors = ec + 1 := by omega
        have hle : maxErrors - ec ≤ 1 := by omega
        simp only [appendResults, hsev, if_true, hmt, Bool.true_and]
        rw [if_pos (by simp; omega)]
        rw [if_pos (by rw [errCount_cons]; simp [hsev]; omega)]
        simp only [takeUntilNErrors, hsev, if_true, hle, if_pos]
        rw [hme]
      · simp only [appendResults, hsev, if_true, hmt, Bool.true_and]
        rw [if_neg (by simp; omega)]
        rw [appendResults_spec maxErrors hm rest (ec + 1) (by omega) (acc ++ [r])]
        rw [takeUntilNErrors_sub_one (maxErrors - ec) r rest hsev (by omega)]
        rw [errCount_cons]
        simp only [hsev, if_true]
        by_cases hc : maxErrors - (ec + 1) ≤ (errCount rest : Int)
        · rw [if_pos hc, if_pos (by push_cast; omega)]
          have : maxErrors - ec - 1 = maxErrors - (ec + 1) := by ring
          simp [this]
        · rw [if_neg hc, if_neg (by push_cast; omega)]
          push_cast
          simp
          omega
    · have hsf : (r.severity == SeverityError) = false := Bool.eq_false_iff.mpr hsev
      simp only [appendResults, hsf, Bool.false_eq_true, if_false]
      rw [appendResults_spec maxErrors hm rest ec hec (acc ++ [r])]
      rw [errCount_cons]
      simp only [hsf, Bool.false_eq_true, if_false, Nat.cast_add, Nat.cast_ofNat,
        Nat.zero_add]
      simp only [takeUntilNErrors, hsf, Bool.false_eq_true, if_false]
      by_cases hc : maxErrors - ec ≤ (errCount rest : Int)
      · rw [if_pos hc, if_pos (by omega)]
        simp
      · rw [if_neg hc, if_neg (by omega)]
        simp

/-- Characterization of the file loop when the limit is inactive. -/
theorem runFilesLoop_no_stop (cf : FileInfo → List Result) (maxErrors : Int)
    (hm : ¬0 < maxErrors) :
    ∀ (files : List FileInfo) (ec : Int) (acc : List Result),
      runFilesLoop cf maxErrors files ec acc = (acc ++ files.flatMap cf, false)
  | [], ec, acc => by simp [runFilesLoop]
  | f :: rest, ec, acc => by
    simp only [runFilesLoop]
    rw [appendResults_no_stop maxErrors hm (cf f) ec acc]
    simp only [Bool.false_eq_true, if_false]
    rw [runFilesLoop_no_stop cf maxErrors hm rest (ec + (errCount (cf f) : Int))
          (acc ++ cf f)]
    simp [List.flatMap_cons]

/-- Characterization of the file loop when the limit is active and not yet
reached: either the whole remaining stream holds too few errors (everything
appended, no stop), or the output is the accumulated list, the truncated
stream up to the limit-reaching error, then the sentinel. -/
theorem runFilesLoop_spec (cf : FileInfo → List Result) (maxErrors : Int)
    (hm : 0 < maxErrors) :
    ∀ (files : List FileInfo) (ec : Int), ec < maxErrors → ∀ acc : List Result,
      runFilesLoop cf maxErrors files ec acc =
        if maxErrors - ec ≤ (errCount (files.flatMap cf) : Int) then
          (acc ++ takeUntilNErrors (maxErrors - ec) (files.flatMap cf)
             ++ [sentinelResult maxErrors], true)
        else (acc ++ files.flatMap cf, false)
  | [], ec, hec, acc => by
    rw [if_neg (by simp [errCount_nil]; omega)]
    simp [runFilesLoop]
  | f :: rest, ec, hec, acc => by
    simp only [runFilesLoop]
    rw [appendResults_spec maxErrors hm (cf f) ec hec acc]
    by_cases h1 : maxErrors - ec ≤ (errCount (cf f) : Int)
    · rw [if_pos h1]
      simp only [if_true]
      rw [List.flatMap_cons, errCount_append,
          takeUntilNErrors_append (cf f) (maxErrors - ec) (by omega) (rest.flatMap cf),
          if_pos (by push_cast; omega), if_neg (by omega)]
    · rw [if_neg h1]
      simp only [Bool.false_eq_true, if_false]
      rw [runFilesLoop_spec cf maxErrors hm rest (ec + (errCount (cf f) : Int))
            (by omega) (acc ++ cf f)]
      rw [List.flatMap_cons, errCount_append,
          takeUntilNErrors_append (cf f) (maxErrors - ec) (by omega) (rest.flatMap cf)]
      by_cases h2 : maxErrors - (ec + (errCount (cf f) : Int))
                      ≤ (errCount (rest.flatMap cf) : Int)
      · rw [if_pos h2, if_pos (by push_cast; omega),
            if_pos (show ((errCount (cf f) : Int)) < maxErrors - ec by omega)]
        have he : maxErrors - ec - (errCount (cf f) : Int)
                 = maxErrors - (ec + (errCount (cf f) : Int)) := by ring
        simp [he]
      · rw [if_neg h2, if_neg (by push_cast; omega)]
        simp

/-- `Run` on the early-stop path: when the limit is positive and the full
diagnostic stream reaches it, the output is the truncated stream followed by
the sentinel, unsorted. -/
theorem Run_stop_characterization (rc : RulesConfig) (enabledOrder : List String)
    (maxErrors : Int) (files : List FileInfo) (hm : 0 < maxErrors)
    (hc : maxErrors ≤ (errCount (files.flatMap (CheckFileC rc enabledOrder)) : Int)) :
    Run rc enabledOrder maxErrors files =
      takeUntilNErrors maxErrors (files.flatMap (CheckFileC rc enabledOrder))
        ++ [sentinelResult maxErrors] := by
  unfold Run
  rw [runFilesLoop_spec (CheckFileC rc enabledOrder) maxErrors hm files 0 hm []]
  rw [if_pos (by omega)]
  simp

/-- `Run` on the normal-completion path: when the limit is inactive or never
reached, the output is the sorted full diagnostic stream. -/
theorem Run_no_stop_characterization (rc : RulesConfig) (enabledOrder : List String)
    (maxErrors : Int) (files : List FileInfo)
    (h : ¬(0 < maxErrors ∧
        maxErrors ≤ (errCount (files.flatMap (CheckFileC rc enabledOrder)) : Int))) :
    Run rc enabledOrder maxErrors files =
      sortResults (files.flatMap (CheckFileC rc enabledOrder)) := by
  unfold Run
  by_cases hm : 0 < maxErrors
  · rw [runFilesLoop_spec (CheckFileC rc enabledOrder) maxErrors hm files 0 hm []]
    rw [if_neg (by intro hx; exact h ⟨hm, by omega⟩)]
    simp
  · rw [runFilesLoop_no_stop (CheckFileC rc enabledOrder) maxErrors hm files 0 []]
    simp

/-! ### Per-line rule lemmas -/

theorem trailingLoop_line_bound (path : String) :
    ∀ (lines : List String) (start : Nat),
      ∀ d ∈ trailingLoop path start lines, (start : Int) < d.line
  | [], _, d, hd => by simp [trailingLoop] at hd
  | line :: rest, start, d, hd => by
    simp only [trailingLoop, List.mem_append] at hd
    rcases hd with h | h
    · cases hw : endsInSpaceOrTab line
      · rw [hw] at h
        simp at h
      · rw [hw] at h
        simp only [if_true, List.mem_singleton] at h
        subst h
        show (start : Int) < (start : Int) + 1
        omega
    · have := trailingLoop_line_bound path rest (start + 1) d h
      push_cast at this ⊢
      omega

/-- All diagnostics of the trailing-whitespace loop with a given line number:
exactly one for a line ending in a space or tab, none otherwise. -/
theorem trailingLoop_filter (path : String) :
    ∀ (lines : List String) (start i : Nat), i < lines.length →
      (trailingLoop path start lines).filter
          (fun d => d.line == ((start + i : Nat) : Int) + 1) =
        if endsInSpaceOrTab (lines.getD i "") then
          [{ file := path, line := ((start + i : Nat) : Int) + 1
             column := ((lines.getD i "").length : Int)
             severity := SeverityWarning, rule := "trailing-whitespace"
             message := "Line has trailing whitespace" }]
        else []
  | [], _, i, hi => by simp at hi
  | line :: rest, start, 0, _ => by
    simp only [trailingLoop, List.getD_cons_zero, List.filter_append, Nat.add_zero]
    have htail : (trailingLoop path (start + 1) rest).filter
        (fun d => d.line == ((start : Nat) : Int) + 1) = [] := by
      rw [List.filter_eq_nil_iff]
      intro d hd
      have := trailingLoop_line_bound path rest (start + 1) d hd
      simp only [beq_iff_eq]
      push_cast at this ⊢
      omega
    rw [htail]
    cases hw : endsInSpaceOrTab line
    · simp [hw]
    · simp [hw]
  | line :: rest, start, i + 1, hi => by
    simp only [trailingLoop, List.getD_cons_succ, List.filter_append]
    have htail := trailingLoop_filter path rest (start + 1) i (by simpa using hi)
    have harith : ((start + 1 + i : Nat) : Int) = ((start + (i + 1) : Nat) : Int) := by
      push_cast
      omega
    rw [harith] at htail
    rw [htail]
    cases hw : endsInSpaceOrTab line
    · simp
    · simp only [hw, if_true, List.filter_cons, List.filter_nil]
      rw [if_neg (by simp only [beq_iff_eq]; push_cast; omega)]
      simp

/-! ### Activation characterization -/

/-- The activation loop of `Rules.CheckFile` holds exactly when some
requested-and-enabled name equals the category name or is one of its string
initial segments. -/
theorem ruleEnabledLoop_iff (rc : RulesConfig) (checks : List String)
    (ruleName : String) :
    ruleEnabledLoop (enabledChecks rc checks) ruleName = true ↔
      ∃ e, e ∈ checks ∧ IsRuleEnabled rc e = true ∧
        (e = ruleName ∨ strHasPre ruleName e = true) := by
  unfold ruleEnabledLoop enabledChecks
  rw [List.any_eq_true]
  constructor
  · rintro ⟨e, he, hp⟩
    rw [List.mem_filter] at he
    rw [Bool.or_eq_true] at hp
    rcases hp with hp | hp
    · exact ⟨e, he.1, he.2, Or.inl (by simpa using hp)⟩
    · exact ⟨e, he.1, he.2, Or.inr hp⟩
  · rintro ⟨e, he, hen, hor⟩
    refine ⟨e, List.mem_filter.mpr ⟨he, hen⟩, ?_⟩
    rw [Bool.or_eq_true]
    rcases hor with rfl | hor
    · exact Or.inl (by simp)
    · exact Or.inr hor

/-- Permutation invariance of `List.any`. -/
theorem listAny_of_perm {α : Type} {o1 o2 : List α} (h : o1.Perm o2)
    (p : α → Bool) : o1.any p = o2.any p := by
  rw [Bool.eq_iff_iff, List.any_eq_true, List.any_eq_true]
  constructor <;> rintro ⟨x, hx, hpx⟩
  · exact ⟨x, h.mem_iff.mp hx, hpx⟩
  · exact ⟨x, h.mem_iff.mpr hx, hpx⟩

/-! ### Claim theorems -/

/-- Claim C1 (the claim is the spec's requirement; the code violates it):
`LoadRulesConfig` is not local-only — its effect trace always begins with an
HTTP GET of the remote rules URL, and on a 200 response it executes the
fetched body with bash; moreover the alternate loader's package `init` hook
launches an HTTP GET at module load. -/
theorem loadRulesConfig_fetches_and_executes_remote :
    ∀ env : FetchEnv,
      SideEffect.httpGet rulesConfigURL ∈ LoadRulesConfigEffects env ∧
      (∀ body, env.response = some (200, body) →
        SideEffect.execBash body ∈ LoadRulesConfigEffects env) ∧
      SideEffect.httpGet initRulesConfigURL ∈ moduleInitEffects := by
  intro env
  refine ⟨?_, ?_, ?_⟩
  · unfold LoadRulesConfigEffects fetchAndExecuteRulesScriptEffects
    exact List.mem_cons_self _ _
  · intro body h
    unfold LoadRulesConfigEffects fetchAndExecuteRulesScriptEffects
    rw [h]
    simp
  · unfold moduleInitEffects
    simp

/-- Witness for C1: with a 200 response carrying body "echo hi", the loader
both fetches the remote URL and executes the fetched body. -/
theorem loadRulesConfig_fetches_and_executes_remote_witness :
    SideEffect.httpGet rulesConfigURL
        ∈ LoadRulesConfigEffects { response := some (200, "echo hi") } ∧
    (FetchEnv.mk (some (200, "echo hi"))).response = some (200, "echo hi") ∧
    SideEffect.execBash "echo hi"
        ∈ LoadRulesConfigEffects { response := some (200, "echo hi") } ∧
    SideEffect.httpGet initRulesConfigURL ∈ moduleInitEffects :=
  ⟨(loadRulesConfig_fetches_and_executes_remote _).1, rfl,
   (loadRulesConfig_fetches_and_executes_remote
      { response := some (200, "echo hi") }).2.1 "echo hi" rfl,
   (loadRulesConfig_fetches_and_executes_remote
      { response := some (200, "echo hi") }).2.2⟩

/-- Claim C7: a rule is active in `CheckFile` (its check runs) exactly when
its declared category name equals some requested-and-enabled name or has
some requested-and-enabled name as an initial segment. -/
theorem rule_activation_characterization (rc : RulesConfig)
    (checks : List String) (ruleName : String) :
    (ruleEnabledLoop (enabledChecks rc checks) ruleName = true ↔
      ∃ e, e ∈ checks ∧ IsRuleEnabled rc e = true ∧
        (e = ruleName ∨ strHasPre ruleName e = true)) ∧
    ∀ (maxLineLength : Int) (file : FileInfo),
      CheckFile rc maxLineLength (enabledChecks rc checks) file =
        (registry rc maxLineLength).flatMap (fun p =>
          if ∃ e, e ∈ checks ∧ IsRuleEnabled rc e = true ∧
              (e = p.1 ∨ strHasPre p.1 e = true) then p.2 file else []) := by
  refine ⟨ruleEnabledLoop_iff rc checks ruleName, ?_⟩
  intro maxLineLength file
  unfold CheckFile
  have hfun : (fun p : String × (FileInfo → List Result) =>
      if ruleEnabledLoop (enabledChecks rc checks) p.1 then p.2 file else []) =
      (fun p : String × (FileInfo → List Result) =>
        if ∃ e, e ∈ checks ∧ IsRuleEnabled rc e = true ∧
            (e = p.1 ∨ strHasPre p.1 e = true) then p.2 file else []) := by
    funext p
    by_cases h : ∃ e, e ∈ checks ∧ IsRuleEnabled rc e = true ∧
        (e = p.1 ∨ strHasPre p.1 e = true)
    · rw [if_pos ((ruleEnabledLoop_iff rc checks p.1).mpr h), if_pos h]
    · rw [if_neg (fun hx => h ((ruleEnabledLoop_iff rc checks p.1).mp hx)),
          if_neg h]
  rw [hfun]

/-- Claim C8: a rule name absent from the mapping resolves to
enabled-with-global-default-severity and empty parameters, and counts as
enabled. -/
theorem getRuleConfig_unknown_rule_defaults (rc : RulesConfig) (name : String)
    (h : lookupRule rc name = none) :
    GetRuleConfig rc name =
      ({ enabled := true, severity := rc.global.defaultSeverity
         parameters := [] }, false) ∧
    IsRuleEnabled rc name = true := by
  unfold GetRuleConfig IsRuleEnabled
  rw [h]
  exact ⟨rfl, rfl⟩

/-- Witness for C8 at the embedded default configuration and an unknown
name. -/
theorem getRuleConfig_unknown_rule_defaults_witness :
    lookupRule defaultRulesConfig "unknown-rule" = none ∧
    GetRuleConfig defaultRulesConfig "unknown-rule" =
      ({ enabled := true
         severity := defaultRulesConfig.global.defaultSeverity
         parameters := [] }, false) ∧
    IsRuleEnabled defaultRulesConfig "unknown-rule" = true :=
  ⟨by decide,
   (getRuleConfig_unknown_rule_defaults defaultRulesConfig "unknown-rule"
      (by decide)).1,
   (getRuleConfig_unknown_rule_defaults defaultRulesConfig "unknown-rule"
      (by decide)).2⟩

theorem lineLengthLoop_line_bound (maxLength : Int) (path : String) :
    ∀ (lines : List String) (start : Nat),
      ∀ d ∈ lineLengthLoop maxLength path start lines, (start : Int) < d.line
  | [], _, d, hd => by simp [lineLengthLoop] at hd
  | line :: rest, start, d, hd => by
    simp only [lineLengthLoop, List.mem_append] at hd
    rcases hd with h | h
    · by_cases hw : maxLength < (line.length : Int)
      · rw [if_pos hw] at h
        simp only [List.mem_singleton] at h
        subst h
        show (start : Int) < (start : Int) + 1
        omega
      · rw [if_neg hw] at h
        simp at h
    · have := lineLengthLoop_line_bound maxLength path rest (start + 1) d h
      push_cast at this ⊢
      omega

/-- Every line-length diagnostic carries column `maxLength + 1` and severity
info. -/
theorem lineLengthLoop_shape (maxLength : Int) (path : String) :
    ∀ (lines : List String) (start : Nat),
      ∀ d ∈ lineLengthLoop maxLength path start lines,
        d.column = maxLength + 1 ∧ d.severity = SeverityInfo
  | [], _, d, hd => by simp [lineLengthLoop] at hd
  | line :: rest, start, d, hd => by
    simp only [lineLengthLoop, List.mem_append] at hd
    rcases hd with h | h
    · by_cases hw : maxLength < (line.length : Int)
      · rw [if_pos hw] at h
        simp only [List.mem_singleton] at h
        subst h
        exact ⟨rfl, rfl⟩
      · rw [if_neg hw] at h
        simp at h
    · exact lineLengthLoop_shape maxLength path rest (start + 1) d h

/-- All diagnostics of the line-length loop with a given line number:
exactly one for a line longer than the limit, none otherwise. -/
theorem lineLengthLoop_filter (maxLength : Int) (path : String) :
    ∀ (lines : List String) (start i : Nat), i < lines.length →
      (lineLengthLoop maxLength path start lines).filter
          (fun d => d.line == ((start + i : Nat) : Int) + 1) =
        if maxLength < ((lines.getD i "").length : Int) then
          [{ file := path, line := ((start + i : Nat) : Int) + 1
             column := maxLength + 1
             severity := SeverityInfo, rule := "line-length"
             message := "Line exceeds " ++ toString maxLength ++ " characters ("
                          ++ toString ((lines.getD i "").length : Int) ++ ")" }]
        else []
  | [], _, i, hi => by simp at hi
  | line :: rest, start, 0, _ => by
    simp only [lineLengthLoop, List.getD_cons_zero, List.filter_append, Nat.add_zero]
    have htail : (lineLengthLoop maxLength path (start + 1) rest).filter
        (fun d => d.line == ((start : Nat) : Int) + 1) = [] := by
      rw [List.filter_eq_nil_iff]
      intro d hd
      have := lineLengthLoop_line_bound maxLength path rest (start + 1) d hd
      simp only [beq_iff_eq]
      push_cast at this ⊢
      omega
    rw [htail]
    by_cases hw : maxLength < (line.length : Int)
    · rw [if_pos hw]
      simp
    · rw [if_neg hw]
      simp
  | line :: rest, start, i + 1, hi => by
    simp only [lineLengthLoop, List.getD_cons_succ, List.filter_append]
    have htail := lineLengthLoop_filter maxLength path rest (start + 1) i
      (by simpa using hi)
    have harith : ((start + 1 + i : Nat) : Int) = ((start + (i + 1) : Nat) : Int) := by
      push_cast
      omega
    rw [harith] at htail
    rw [htail]
    by_cases hw : maxLength < (line.length : Int)
    · rw [if_pos hw]
      simp only [List.filter_cons, List.filter_nil]
      rw [if_neg (by simp only [beq_iff_eq]; push_cast; omega)]
      simp
    · rw [if_neg hw]
      simp

/-- If some line among the first 22 (absolute indices up to 21) starts, after
trimming, with `#pragma once`, the header-guard scan short-circuits with the
pragma flag set (the early-stop break can only fire at absolute index 21 or
later, after the pragma test of that iteration). -/
theorem headerGuardLoop_pragma :
    ∀ (lines : List String) (start i : Nat) (hI hD hE : Bool),
      i < lines.length → start + i ≤ 21 →
      strHasPre (strTrim (lines.getD i "")) "#pragma once" = true →
      (headerGuardLoop true start hI hD hE lines).2.2.2 = true
  | [], _, i, _, _, _, hi, _, _ => by simp at hi
  | line :: rest, start, 0, hI, hD, hE, _, _, hp => by
    rw [List.getD_cons_zero] at hp
    simp only [headerGuardLoop, hp, Bool.true_and, Bool.and_self, if_true]
  | line :: rest, start, i + 1, hI, hD, hE, hi, hw, hp => by
    rw [List.getD_cons_succ] at hp
    simp only [headerGuardLoop]
    by_cases hphead : strHasPre (strTrim line) "#pragma once" = true
    · simp only [hphead, Bool.true_and, if_true]
    · have hbreak : decide (20 < start) = false := by
        simp only [decide_eq_false_iff_not]
        omega
      simp only [hphead, Bool.true_and, if_false, hbreak, Bool.false_and,
        Bool.false_eq_true]
      exact headerGuardLoop_pragma rest (start + 1) i _ _ _
        (by simpa using hi) (by omega) hp

/-- Claim C4 counterexample: under a configuration giving the
trailing-whitespace rule severity error, the emitted diagnostic still
carries severity warning — the rule ignores its configured severity. -/
theorem trailingWhitespace_configured_severity_counterexample :
    ((GetRuleConfig trailingErrorConfig "trailing-whitespace").1).severity
        = SeverityError ∧
    (TrailingWhitespaceCheck trailingErrorConfig trailingSpaceFile).map
        Result.severity = [SeverityWarning] ∧
    ¬SeverityWarning = SeverityError :=
  ⟨by decide, by decide, by decide⟩

/-- Claim C4 (amended): for every line ending in a space or tab, the enabled
trailing-whitespace rule emits exactly one diagnostic at that line with
column equal to the line length — but always with severity warning, the
configured severity being ignored. -/
theorem trailingWhitespace_line_diagnostic (rc : RulesConfig) (file : FileInfo)
    (i : Nat) (hi : i < file.lines.length)
    (hen : ((GetRuleConfig rc "trailing-whitespace").1).enabled = true)
    (hws : endsInSpaceOrTab (file.lines.getD i "") = true) :
    (TrailingWhitespaceCheck rc file).filter (fun d => d.line == (i : Int) + 1) =
      [{ file := file.path, line := (i : Int) + 1
         column := ((file.lines.getD i "").length : Int)
         severity := SeverityWarning, rule := "trailing-whitespace"
         message := "Line has trailing whitespace" }] := by
  simp only [TrailingWhitespaceCheck, hen, Bool.not_true, Bool.false_eq_true,
    if_false]
  have h := trailingLoop_filter file.path file.lines 0 i hi
  rw [hws, if_pos rfl] at h
  simpa using h

/-- Witness for C4 at the default configuration and a one-line file ending
in a space. -/
theorem trailingWhitespace_line_diagnostic_witness :
    0 < trailingSpaceFile.lines.length ∧
    ((GetRuleConfig defaultRulesConfig "trailing-whitespace").1).enabled = true ∧
    endsInSpaceOrTab (trailingSpaceFile.lines.getD 0 "") = true ∧
    (TrailingWhitespaceCheck defaultRulesConfig trailingSpaceFile).filter
        (fun d => d.line == ((0 : Nat) : Int) + 1) =
      [{ file := trailingSpaceFile.path, line := ((0 : Nat) : Int) + 1
         column := ((trailingSpaceFile.lines.getD 0 "").length : Int)
         severity := SeverityWarning, rule := "trailing-whitespace"
         message := "Line has trailing whitespace" }] :=
  ⟨by decide, by decide, by decide,
   trailingWhitespace_line_diagnostic defaultRulesConfig trailingSpaceFile 0
     (by decide) (by decide) (by decide)⟩

/-- Claim C5 counterexample: a header containing `#pragma once` only at line
23 (past the scan window, behind 22 plain-code lines) is still flagged by the
header-guard rule under the default configuration, where `allow_pragma_once`
is true. -/
theorem headerGuard_pragma_beyond_window_counterexample :
    lookupBool ((GetRuleConfig defaultRulesConfig "header-guards").1).parameters
        "allow_pragma_once" = some true ∧
    latePragmaFile.lines.any
        (fun l => strHasPre (strTrim l) "#pragma once") = true ∧
    HeaderGuardCheck defaultRulesConfig latePragmaFile =
      [{ file := "late.h", line := 1, column := 1
         severity := SeverityError, rule := "header-guards"
         message := "Missing or incomplete header guard" }] :=
  ⟨by decide, by decide, by decide⟩

/-- Claim C5 (amended): a header file containing a trimmed `#pragma once`
line among its first 22 lines (the part of the file the scan is guaranteed
to reach), with `allow_pragma_once` resolving to true, never produces a
header-guard diagnostic, regardless of the `#ifndef`/`#define`/`#endif`
markers. -/
theorem headerGuard_pragma_within_window (rc : RulesConfig) (file : FileInfo)
    (i : Nat) (hi : i < file.lines.length) (hw : i ≤ 21)
    (ha : allowPragmaOnceOf ((GetRuleConfig rc "header-guards").1) = true)
    (hp : strHasPre (strTrim (file.lines.getD i "")) "#pragma once" = true) :
    HeaderGuardCheck rc file = [] := by
  cases hen : ((GetRuleConfig rc "header-guards").1).enabled
  · simp [HeaderGuardCheck, hen]
  · cases hsuf : (!strHasSuf file.path ".h" && !strHasSuf file.path ".hpp")
    · simp only [HeaderGuardCheck, hen, Bool.not_true, Bool.false_eq_true,
        if_false, hsuf, ha]
      have hloop := headerGuardLoop_pragma file.lines 0 i false false false hi
        (by omega) hp
      rcases hq : headerGuardLoop true 0 false false false file.lines with
        ⟨hI, hD, hE, pp⟩
      rw [hq] at hloop
      simp only at hloop
      simp [hloop]
    · simp [HeaderGuardCheck, hen, hsuf]

/-- Witness for C5 at the default configuration and a header whose first
line is `#pragma once` with no guard markers at all. -/
theorem headerGuard_pragma_within_window_witness :
    0 < earlyPragmaFile.lines.length ∧ (0 : Nat) ≤ 21 ∧
    allowPragmaOnceOf ((GetRuleConfig defaultRulesConfig "header-guards").1)
        = true ∧
    strHasPre (strTrim (earlyPragmaFile.lines.getD 0 "")) "#pragma once"
        = true ∧
    HeaderGuardCheck defaultRulesConfig earlyPragmaFile = [] :=
  ⟨by decide, by decide, by decide, by decide,
   headerGuard_pragma_within_window defaultRulesConfig earlyPragmaFile 0
     (by decide) (by decide) (by decide) (by decide)⟩

/-- Claim C6: for every file and every line, a line-length diagnostic exists
at that line exactly when the line exceeds the limit; its column is always
`max + 1` and its severity info; and the default configuration resolves the
limit to 100. -/
theorem lineLength_diagnostic_iff (maxLength : Int) (file : FileInfo) :
    (∀ i : Nat, i < file.lines.length →
      (LineLengthCheck maxLength file).filter (fun d => d.line == (i : Int) + 1) =
        if maxLength < ((file.lines.getD i "").length : Int) then
          [{ file := file.path, line := (i : Int) + 1, column := maxLength + 1
             severity := SeverityInfo, rule := "line-length"
             message := "Line exceeds " ++ toString maxLength ++ " characters ("
                          ++ toString ((file.lines.getD i "").length : Int)
                          ++ ")" }]
        else []) ∧
    (∀ d ∈ LineLengthCheck maxLength file,
      d.column = maxLength + 1 ∧ d.severity = SeverityInfo) ∧
    maxLineLengthOf defaultRulesConfig = 100 := by
  refine ⟨?_, ?_, by decide⟩
  · intro i hi
    have h := lineLengthLoop_filter maxLength file.path file.lines 0 i hi
    simpa [LineLengthCheck] using h
  · intro d hd
    exact lineLengthLoop_shape maxLength file.path file.lines 0 d hd

/-- Witness for C6 at limit 5 and a six-character line. -/
theorem lineLength_diagnostic_iff_witness :
    0 < sixCharLineFile.lines.length ∧
    (LineLengthCheck 5 sixCharLineFile).filter
        (fun d => d.line == ((0 : Nat) : Int) + 1) =
      (if (5 : Int) < ((sixCharLineFile.lines.getD 0 "").length : Int) then
        [{ file := sixCharLineFile.path, line := ((0 : Nat) : Int) + 1
           column := (5 : Int) + 1
           severity := SeverityInfo, rule := "line-length"
           message := "Line exceeds " ++ toString (5 : Int) ++ " characters ("
                        ++ toString ((sixCharLineFile.lines.getD 0 "").length : Int)
                        ++ ")" }]
      else []) :=
  ⟨by decide, (lineLength_diagnostic_iff 5 sixCharLineFile).1 0 (by decide)⟩

/-- Claim C3: with a positive limit reached by the diagnostic stream, `Run`
returns exactly the stream truncated at the limit-reaching error followed by
the one sentinel (empty file, line 0, column 0, severity info, rule
"max-errors"); the truncation holds exactly `N` errors and is an initial
segment of the stream; with limit 0 no sentinel is ever appended (the output
is just the sorted stream). -/
theorem run_max_errors_policy (rc : RulesConfig) (order : List String)
    (N : Int) (files : List FileInfo) :
    (0 < N → N ≤ (errCount (files.flatMap (CheckFileC rc order)) : Int) →
      Run rc order N files =
        takeUntilNErrors N (files.flatMap (CheckFileC rc order)) ++
          [{ file := "", line := 0, column := 0
             severity := SeverityInfo, rule := "max-errors"
             message := "Maximum error count (" ++ toString N
                          ++ ") reached, stopping" }] ∧
      (errCount (takeUntilNErrors N (files.flatMap (CheckFileC rc order))) : Int)
          = N ∧
      ∃ t, takeUntilNErrors N (files.flatMap (CheckFileC rc order)) ++ t
            = files.flatMap (CheckFileC rc order)) ∧
    Run rc order 0 files = sortResults (files.flatMap (CheckFileC rc order)) := by
  constructor
  · intro hN hc
    refine ⟨?_, errCount_takeUntilNErrors _ N hN hc,
            takeUntilNErrors_initial _ N⟩
    have h := Run_stop_characterization rc order N files hN hc
    simpa [sentinelResult] using h
  · exact Run_no_stop_characterization rc order 0 files (by omega)

/-- Witness for C3: one empty header under the default configuration with
`header-guards` requested and `MaxErrors = 1`. -/
theorem run_max_errors_policy_witness :
    (0 : Int) < 1 ∧
    (1 : Int) ≤ (errCount
        ([emptyDotHFile].flatMap (CheckFileC defaultRulesConfig
          ["header-guards"])) : Int) ∧
    Run defaultRulesConfig ["header-guards"] 1 [emptyDotHFile] =
      takeUntilNErrors 1
          ([emptyDotHFile].flatMap (CheckFileC defaultRulesConfig
            ["header-guards"])) ++
        [{ file := "", line := 0, column := 0
           severity := SeverityInfo, rule := "max-errors"
           message := "Maximum error count (" ++ toString (1 : Int)
                        ++ ") reached, stopping" }] :=
  ⟨by decide, by decide,
   ((run_max_errors_policy defaultRulesConfig ["header-guards"] 1
      [emptyDotHFile]).1 (by decide) (by decide)).1⟩

/-- Claim C10: when the limit is reached inside a file, the returned
sequence keeps that file's diagnostics only up to the limit-reaching error —
the remainder of the current file's already-computed diagnostics is
discarded along with all later files. -/
theorem run_cutoff_discards_current_file_remainder (rc : RulesConfig)
    (order : List String) (fs1 : List FileInfo) (f : FileInfo)
    (fs2 : List FileInfo) (N : Int) (h0 : 0 < N)
    (h1 : (errCount (fs1.flatMap (CheckFileC rc order)) : Int) < N)
    (h2 : N ≤ (errCount (fs1.flatMap (CheckFileC rc order)) : Int)
            + (errCount (CheckFileC rc order f) : Int)) :
    Run rc order N (fs1 ++ f :: fs2) =
      fs1.flatMap (CheckFileC rc order) ++
        (takeUntilNErrors
            (N - (errCount (fs1.flatMap (CheckFileC rc order)) : Int))
            (CheckFileC rc order f)
          ++ [sentinelResult N]) ∧
    ∃ t, takeUntilNErrors
            (N - (errCount (fs1.flatMap (CheckFileC rc order)) : Int))
            (CheckFileC rc order f) ++ t
          = CheckFileC rc order f := by
  constructor
  · have hflat : (fs1 ++ f :: fs2).flatMap (CheckFileC rc order) =
        fs1.flatMap (CheckFileC rc order) ++
          (CheckFileC rc order f ++ fs2.flatMap (CheckFileC rc order)) := by
      simp [List.flatMap_append]
    have hcnt : N ≤ (errCount
        ((fs1 ++ f :: fs2).flatMap (CheckFileC rc order)) : Int) := by
      rw [hflat, errCount_append, errCount_append]
      push_cast
      omega
    rw [Run_stop_characterization rc order N (fs1 ++ f :: fs2) h0 hcnt, hflat]
    rw [takeUntilNErrors_append _ N h0 _, if_pos h1]
    rw [takeUntilNErrors_append _
          (N - (errCount (fs1.flatMap (CheckFileC rc order)) : Int))
          (by omega) _,
        if_neg (by omega)]
    simp [List.append_assoc]
  · exact takeUntilNErrors_initial _ _

/-- Witness for C10: a single file producing two error diagnostics with
`MaxErrors = 1` keeps only the first and drops the second, which belongs to
the same file. -/
theorem run_cutoff_discards_current_file_remainder_witness :
    (0 : Int) < 1 ∧
    (errCount (([] : List FileInfo).flatMap (CheckFileC twoErrorConfig
        ["license-headers", "header-guards"])) : Int) < 1 ∧
    (1 : Int) ≤ (errCount (([] : List FileInfo).flatMap (CheckFileC twoErrorConfig
        ["license-headers", "header-guards"])) : Int)
      + (errCount (CheckFileC twoErrorConfig
          ["license-headers", "header-guards"] twoErrorFile) : Int) ∧
    Run twoErrorConfig ["license-headers", "header-guards"] 1
        ([] ++ twoErrorFile :: []) =
      ([] : List FileInfo).flatMap (CheckFileC twoErrorConfig
          ["license-headers", "header-guards"]) ++
        (takeUntilNErrors
            (1 - (errCount (([] : List FileInfo).flatMap (CheckFileC twoErrorConfig
              ["license-headers", "header-guards"])) : Int))
            (CheckFileC twoErrorConfig
              ["license-headers", "header-guards"] twoErrorFile)
          ++ [sentinelResult 1]) :=
  ⟨by decide, by decide, by decide,
   (run_cutoff_discards_current_file_remainder twoErrorConfig
      ["license-headers", "header-guards"] [] twoErrorFile [] 1
      (by decide) (by decide) (by decide)).1⟩

/-- Claim C2 counterexample: on the max-errors early stop the returned
sequence is not sorted by (file, line, column) — the sentinel's empty file
path sorts before the diagnostic that precedes it. -/
theorem run_early_stop_unsorted_counterexample :
    Run defaultRulesConfig ["header-guards"] 1 [emptyDotHFile] =
      [{ file := "a.h", line := 1, column := 1
         severity := SeverityError, rule := "header-guards"
         message := "Missing or incomplete header guard" },
       { file := "", line := 0, column := 0
         severity := SeverityInfo, rule := "max-errors"
         message := "Maximum error count (1) reached, stopping" }] ∧
    isSortedResults
        (Run defaultRulesConfig ["header-guards"] 1 [emptyDotHFile]) = false :=
  ⟨by decide, by decide⟩

/-- Claim C2 (amended): on the normal completion path (limit inactive or
never reached) `Run` returns the sorted stream, pairwise non-decreasing in
(file, line, column); on the max-errors early stop it returns the truncated
stream in insertion order with the sentinel appended last, without
sorting. -/
theorem run_sorting_behavior (rc : RulesConfig) (order : List String)
    (N : Int) (files : List FileInfo) :
    (¬(0 < N ∧ N ≤ (errCount (files.flatMap (CheckFileC rc order)) : Int)) →
      Run rc order N files = sortResults (files.flatMap (CheckFileC rc order)) ∧
      List.Pairwise (fun a b => resLe a b = true) (Run rc order N files)) ∧
    (0 < N → N ≤ (errCount (files.flatMap (CheckFileC rc order)) : Int) →
      Run rc order N files =
        takeUntilNErrors N (files.flatMap (CheckFileC rc order))
          ++ [sentinelResult N]) := by
  constructor
  · intro h
    have he := Run_no_stop_characterization rc order N files h
    refine ⟨he, ?_⟩
    rw [he]
    exact sortResults_sorted _
  · intro h1 h2
    exact Run_stop_characterization rc order N files h1 h2

/-- Witness for C2: the normal-path branch at limit 0 on two files supplied
in reverse order, and the early-stop branch at limit 1 on an empty
header. -/
theorem run_sorting_behavior_witness :
    (¬((0 : Int) < 0 ∧ (0 : Int) ≤ (errCount (outOfOrderFiles.flatMap
        (CheckFileC defaultRulesConfig ["formatting"])) : Int)) ∧
     Run defaultRulesConfig ["formatting"] 0 outOfOrderFiles =
       sortResults (outOfOrderFiles.flatMap
         (CheckFileC defaultRulesConfig ["formatting"])) ∧
     List.Pairwise (fun a b => resLe a b = true)
       (Run defaultRulesConfig ["formatting"] 0 outOfOrderFiles)) ∧
    ((0 : Int) < 1 ∧
     (1 : Int) ≤ (errCount ([emptyDotHFile].flatMap
        (CheckFileC defaultRulesConfig ["header-guards"])) : Int) ∧
     Run defaultRulesConfig ["header-guards"] 1 [emptyDotHFile] =
       takeUntilNErrors 1 ([emptyDotHFile].flatMap
           (CheckFileC defaultRulesConfig ["header-guards"]))
         ++ [sentinelResult 1]) :=
  ⟨⟨by decide,
    (run_sorting_behavior defaultRulesConfig ["formatting"] 0
       outOfOrderFiles).1 (by decide)⟩,
   ⟨by decide, by decide,
    (run_sorting_behavior defaultRulesConfig ["header-guards"] 1
       [emptyDotHFile]).2 (by decide) (by decide)⟩⟩

/-- Claim C9: `CheckFile` and `Run` are deterministic in the face of Go's
randomized map iteration — any two iteration orders of the enabled-check set
that are permutations of each other yield identical diagnostic sequences
(files in supplied order, rules in fixed registry order by construction). -/
theorem checkFile_run_enabled_order_invariant (rc : RulesConfig)
    (o1 o2 : List String) (hperm : o1.Perm o2) :
    (∀ (maxLineLength : Int) (file : FileInfo),
      CheckFile rc maxLineLength o1 file = CheckFile rc maxLineLength o2 file) ∧
    (∀ (N : Int) (files : List FileInfo),
      Run rc o1 N files = Run rc o2 N files) := by
  have hloop : ∀ ruleName, ruleEnabledLoop o1 ruleName
      = ruleEnabledLoop o2 ruleName := by
    intro rn
    exact listAny_of_perm hperm _
  have hcf : ∀ (maxLineLength : Int) (file : FileInfo),
      CheckFile rc maxLineLength o1 file = CheckFile rc maxLineLength o2 file := by
    intro maxLineLength file
    unfold CheckFile
    have hfun : (fun p : String × (FileInfo → List Result) =>
        if ruleEnabledLoop o1 p.1 then p.2 file else []) =
        (fun p : String × (FileInfo → List Result) =>
          if ruleEnabledLoop o2 p.1 then p.2 file else []) := by
      funext p
      rw [hloop p.1]
    rw [hfun]
  refine ⟨hcf, ?_⟩
  intro N files
  unfold Run CheckFileC
  have hfn : CheckFile rc (maxLineLengthOf rc) o1
      = CheckFile rc (maxLineLengthOf rc) o2 := by
    funext file
    exact hcf _ file
  rw [hfn]

/-- Witness for C9: two orders of the same two enabled names agree on a
sample file and on a one-file run. -/
theorem checkFile_run_enabled_order_invariant_witness :
    List.Perm ["formatting", "license-headers"]
      ["license-headers", "formatting"] ∧
    CheckFile defaultRulesConfig 100 ["formatting", "license-headers"]
        sampleDotCFile
      = CheckFile defaultRulesConfig 100 ["license-headers", "formatting"]
        sampleDotCFile ∧
    Run defaultRulesConfig ["formatting", "license-headers"] 0 [sampleDotCFile]
      = Run defaultRulesConfig ["license-headers", "formatting"] 0
        [sampleDotCFile] :=
  ⟨by decide,
   (checkFile_run_enabled_order_invariant defaultRulesConfig
      ["formatting", "license-headers"] ["license-headers", "formatting"]
      (by decide)).1 100 sampleDotCFile,
   (checkFile_run_enabled_order_invariant defaultRulesConfig
      ["formatting", "license-headers"] ["license-headers", "formatting"]
      (by decide)).2 0 [sampleDotCFile]⟩
